import Mathlib

/-!
A shallow embedding of `solution.py`: a one-shot batch utility that fetches a
fixed list of URLs concurrently, truncates each response body to a 2000-character
preview (UTF-8 decoded with undecodable bytes ignored), and writes each result
as an indented JSON file `output/result_<unix_seconds>.json`.

The network, clock and filesystem are modelled explicitly: a `NetEnv` maps each
URL to either an error or a response body (a byte list), `tsOf i` is the Unix
timestamp observed by the task for the `i`-th target (arbitrary, capturing
scheduling nondeterminism), and the filesystem is the list of directories that
exist plus the list of performed writes.
-/

namespace SwiftRemit

/-- Is `b` a UTF-8 continuation byte (`0x80..0xBF`)? -/
def isCont (b : Nat) : Bool :=
  decide (0x80 ≤ b ∧ b ≤ 0xBF)

/-- Valid range of the second byte of a 3-byte sequence headed by `b`
(excluding overlong encodings for `0xE0` and surrogates for `0xED`). -/
def cont2Ok3 (b b2 : Nat) : Bool :=
  if b = 0xE0 then decide (0xA0 ≤ b2 ∧ b2 ≤ 0xBF)
  else if b = 0xED then decide (0x80 ≤ b2 ∧ b2 ≤ 0x9F)
  else isCont b2

/-- Valid range of the second byte of a 4-byte sequence headed by `b`
(excluding overlong encodings for `0xF0` and values above U+10FFFF for `0xF4`). -/
def cont2Ok4 (b b2 : Nat) : Bool :=
  if b = 0xF0 then decide (0x90 ≤ b2 ∧ b2 ≤ 0xBF)
  else if b = 0xF4 then decide (0x80 ≤ b2 ∧ b2 ≤ 0x8F)
  else isCont b2

/-- `bytes.decode("utf-8", errors="ignore")`: UTF-8 decoding where invalid
byte sequences are dropped (decoding resumes at the first offending byte),
never replaced by a substitution character and never raising. -/
def utf8DecodeIgnore : List Nat → List Char
  | [] => []
  | b :: rest =>
    if b < 0x80 then
      Char.ofNat b :: utf8DecodeIgnore rest
    else if 0xC2 ≤ b ∧ b ≤ 0xDF then
      match rest with
      | [] => []
      | b2 :: rest2 =>
        if isCont b2 then
          Char.ofNat ((b - 0xC0) * 0x40 + (b2 - 0x80)) :: utf8DecodeIgnore rest2
        else
          utf8DecodeIgnore (b2 :: rest2)
    else if 0xE0 ≤ b ∧ b ≤ 0xEF then
      match rest with
      | [] => []
      | b2 :: rest2 =>
        if cont2Ok3 b b2 then
          match rest2 with
          | [] => []
          | b3 :: rest3 =>
            if isCont b3 then
              Char.ofNat ((b - 0xE0) * 0x1000 + (b2 - 0x80) * 0x40 + (b3 - 0x80)) ::
                utf8DecodeIgnore rest3
            else
              utf8DecodeIgnore (b3 :: rest3)
        else
          utf8DecodeIgnore (b2 :: rest2)
    else if 0xF0 ≤ b ∧ b ≤ 0xF4 then
      match rest with
      | [] => []
      | b2 :: rest2 =>
        if cont2Ok4 b b2 then
          match rest2 with
          | [] => []
          | b3 :: rest3 =>
            if isCont b3 then
              match rest3 with
              | [] => []
              | b4 :: rest4 =>
                if isCont b4 then
                  Char.ofNat ((b - 0xF0) * 0x40000 + (b2 - 0x80) * 0x1000 +
                    (b3 - 0x80) * 0x40 + (b4 - 0x80)) :: utf8DecodeIgnore rest4
                else
                  utf8DecodeIgnore (b4 :: rest4)
            else
              utf8DecodeIgnore (b3 :: rest3)
        else
          utf8DecodeIgnore (b2 :: rest2)
    else
      utf8DecodeIgnore rest

/-- Errors a run can surface: a failed fetch for one URL, or a filesystem
`FileExistsError` from directory creation. -/
inductive RunError where
  | fetchError (url msg : String)
  | fileExists (path : String)
deriving DecidableEq

/-- The outbound HTTP request issued for one URL: `Request(url, headers=...)`
passed to `urlopen(req, timeout=15)`. The fields beyond `headers` record what
the source configures (and, for `auth`/`cookies`/`proxy`, does not configure). -/
structure Request where
  method : String
  url : String
  headers : List (String × String)
  timeoutSeconds : Nat
  auth : Option String
  cookies : List (String × String)
  proxy : Option String
deriving DecidableEq

/-- The request `fetch` builds for `url`. -/
def mkRequest (url : String) : Request :=
  { method := "GET"
    url := url
    headers := [("User-Agent", "AutonomousBot/1.0")]
    timeoutSeconds := 15
    auth := none
    cookies := []
    proxy := none }

/-- The network: each URL yields either a client/network error message or a
response body (bytes). -/
structure NetEnv where
  response : String → Except String (List Nat)

/-- `fetch(url)`: issue one GET request; on success decode the body leniently
and keep the first 2000 characters; on failure propagate the error.  Returns
the issued request alongside the result. -/
def fetch (env : NetEnv) (url : String) : Request × Except RunError String :=
  (mkRequest url,
    match env.response url with
    | .error msg => .error (RunError.fetchError url msg)
    | .ok body => .ok (String.mk ((utf8DecodeIgnore body).take 2000)))

/-- Lower-case hexadecimal digit for `n < 16`, as used by Python's
`\u00xx` escapes. -/
def hexDigitChar (n : Nat) : Char :=
  if n < 10 then Char.ofNat (48 + n) else Char.ofNat (87 + n)

/-- How `json.dumps(..., ensure_ascii=False)` renders one character inside a
string literal: escape the quote, the backslash and control characters
(five short escapes, `\u00xx` otherwise); every other character — including
every non-ASCII character — is emitted unchanged. -/
def jsonEscapeChar (c : Char) : List Char :=
  if c = '"' then ['\\', '"']
  else if c = '\\' then ['\\', '\\']
  else if c = '\x08' then ['\\', 'b']
  else if c = '\x09' then ['\\', 't']
  else if c = '\x0a' then ['\\', 'n']
  else if c = '\x0c' then ['\\', 'f']
  else if c = '\x0d' then ['\\', 'r']
  else if c.toNat < 0x20 then
    ['\\', 'u', '0', '0', hexDigitChar (c.toNat / 16), hexDigitChar (c.toNat % 16)]
  else [c]

/-- Escape every character of a string body. -/
def jsonEscapeList : List Char → List Char
  | [] => []
  | c :: cs => jsonEscapeChar c ++ jsonEscapeList cs

/-- A JSON string literal: the escaped body between two quotes. -/
def jsonQuote (s : List Char) : List Char :=
  '"' :: (jsonEscapeList s ++ ['"'])

/-- `json.dumps({"url": url, "preview": preview}, ensure_ascii=False, indent=2)`
as a character list: a two-member object, keys in insertion order, each member
on its own line indented by two spaces, `": "` after the key. -/
def pyJsonDumpsChars (url preview : List Char) : List Char :=
  ['\x7b', '\n', ' ', ' '] ++ jsonQuote ['u', 'r', 'l'] ++ [':', ' '] ++
    jsonQuote url ++ [',', '\n', ' ', ' '] ++
    jsonQuote ['p', 'r', 'e', 'v', 'i', 'e', 'w'] ++ [':', ' '] ++
    jsonQuote preview ++ ['\n', '\x7d']

/-- The serialized record, as a `String`. -/
def pyJsonDumps (url preview : String) : String :=
  String.mk (pyJsonDumpsChars url.data preview.data)

/-- Value of a hexadecimal digit character, as `json.loads` reads `\uXXXX`. -/
def hexVal (c : Char) : Option Nat :=
  if '0' ≤ c ∧ c ≤ '9' then some (c.toNat - 48)
  else if 'a' ≤ c ∧ c ≤ 'f' then some (c.toNat - 87)
  else if 'A' ≤ c ∧ c ≤ 'F' then some (c.toNat - 55)
  else none

/-- Is `c` JSON whitespace? -/
def isJsonWs (c : Char) : Bool :=
  c = ' ' || c = '\t' || c = '\n' || c = '\r'

/-- Skip JSON whitespace. -/
def skipWs (l : List Char) : List Char :=
  l.dropWhile isJsonWs

/-- Four hexadecimal digits after `\u`: the decoded character and the rest. -/
def scanHex4 : List Char → Option (Char × List Char)
  | h1 :: h2 :: h3 :: h4 :: r2 =>
    match hexVal h1, hexVal h2, hexVal h3, hexVal h4 with
    | some v1, some v2, some v3, some v4 =>
      some (Char.ofNat (v1 * 4096 + v2 * 256 + v3 * 16 + v4), r2)
    | _, _, _, _ => none
  | _ => none

/-- Resolve one backslash escape (input positioned just after the backslash):
the denoted character and the remaining input. -/
def unescape1 : List Char → Option (Char × List Char)
  | [] => none
  | e :: r =>
    if e = '"' then some ('"', r)
    else if e = '\\' then some ('\\', r)
    else if e = '/' then some ('/', r)
    else if e = 'b' then some ('\x08', r)
    else if e = 'f' then some ('\x0c', r)
    else if e = 'n' then some ('\x0a', r)
    else if e = 'r' then some ('\x0d', r)
    else if e = 't' then some ('\x09', r)
    else if e = 'u' then scanHex4 r
    else none

/-- `json.loads`'s string scanner, positioned just after the opening quote:
returns the decoded string body and the input remaining after the closing
quote, resolving the standard backslash escapes and `\uXXXX`. -/
def scanString (l : List Char) : Option (List Char × List Char) :=
  match l with
  | [] => none
  | c :: rest =>
    if c = '"' then some ([], rest)
    else if c = '\\' then
      match h : unescape1 rest with
      | some (ch, r2) => (scanString r2).map (fun p => (ch :: p.1, p.2))
      | none => none
    else (scanString rest).map (fun p => (c :: p.1, p.2))
termination_by l.length
decreasing_by
  · have key : ∀ L : List Char, unescape1 L = some (ch, r2) → r2.length ≤ L.length := by
      intro L hL
      rcases L with _ | ⟨e, r⟩
      · simp [unescape1] at hL
      · simp only [unescape1] at hL
        split_ifs at hL with h1 h2 h3 h4 h5 h6 h7 h8 h9
        any_goals (cases hL; simp)
        · rcases r with _ | ⟨a1, _ | ⟨a2, _ | ⟨a3, _ | ⟨a4, r3⟩⟩⟩⟩ <;>
            simp only [scanHex4] at hL
          any_goals cases hL
          split at hL <;> cases hL
          simp only [List.length_cons]
          omega
    simp only [List.length_cons]
    exact Nat.lt_succ_of_le (key _ h)
  · simp

/-- Parse one `"key": "value"` object member (leading whitespace allowed),
returning the key, the value and the remaining input. -/
def parseStringMember (l : List Char) : Option ((List Char × List Char) × List Char) :=
  match skipWs l with
  | '"' :: r =>
    match scanString r with
    | none => none
    | some (key, r2) =>
      match skipWs r2 with
      | ':' :: r3 =>
        match skipWs r3 with
        | '"' :: r4 =>
          match scanString r4 with
          | none => none
          | some (val, r5) => some ((key, val), r5)
        | _ => none
      | _ => none
  | _ => none

/-- `json.loads` restricted to the documents the worker produces: an object of
exactly two string-valued members (and nothing after it). Returns both
key/value pairs in source order. -/
def pyJsonLoadsPair (s : String) : Option ((String × String) × (String × String)) :=
  match skipWs s.data with
  | '\x7b' :: r =>
    match parseStringMember r with
    | none => none
    | some ((k1, v1), r1) =>
      match skipWs r1 with
      | ',' :: r2 =>
        match parseStringMember r2 with
        | none => none
        | some ((k2, v2), r3) =>
          match skipWs r3 with
          | '\x7d' :: r4 =>
            if skipWs r4 = [] then
              some ((String.mk k1, String.mk v1), (String.mk k2, String.mk v2))
            else none
          | _ => none
      | _ => none
  | _ => none

/-- Reading a result file back into a `(url, preview)` record: the document
must be a two-member object with keys `url` and `preview` in that order. -/
def pyJsonLoadsRecord (s : String) : Option (String × String) :=
  match pyJsonLoadsPair s with
  | some ((k1, v1), (k2, v2)) =>
    if k1 = "url" ∧ k2 = "preview" then some (v1, v2) else none
  | none => none

/-- One file write performed by a task: `p.write_text(..., encoding="utf-8")`. -/
structure WriteOp where
  path : String
  content : String
  encoding : String
deriving DecidableEq

/-- What one `worker` task did: the requests it issued, the files it wrote,
and its result (the written path, or the propagated fetch error). -/
structure TaskOutcome where
  requests : List Request
  writes : List WriteOp
  result : Except RunError String

/-- `worker(url, out_dir)` observing Unix timestamp `ts` at its
`int(time.time())` call: fetch, then on success write the JSON record to
`out_dir/result_<ts>.json` and return that path; on fetch failure write
nothing, retry nothing, and propagate the error. -/
def worker (env : NetEnv) (ts : Nat) (url : String) (outDir : String) :
    TaskOutcome :=
  match fetch env url with
  | (req, .error e) => { requests := [req], writes := [], result := .error e }
  | (req, .ok content) =>
    let p := outDir ++ "/result_" ++ toString ts ++ ".json"
    { requests := [req]
      writes := [{ path := p, content := pyJsonDumps url content, encoding := "utf-8" }]
      result := .ok p }

/-- `Path(d).mkdir(parents=..., exist_ok=...)` on a filesystem whose existing
directories are `dirs`: raises `FileExistsError` only when the directory
exists and `exist_ok` is false. (`output` is a single relative component, so
its parent — the working directory — always exists.) -/
def pathMkdir (dirs : List String) (d : String) (existOk : Bool) :
    Except RunError (List String) :=
  if d ∈ dirs then
    if existOk then .ok dirs else .error (RunError.fileExists d)
  else .ok (d :: dirs)

/-- One task per target, in target-list order; the task for the `i`-th target
observes timestamp `tsOf i`. -/
def runWorkers (env : NetEnv) (tsOf : Nat → Nat) : Nat → List String → List TaskOutcome
  | _, [] => []
  | i, url :: rest => worker env (tsOf i) url "output" :: runWorkers env tsOf (i + 1) rest

/-- `asyncio.gather(*tasks)`: on full success the list of task results in task
(argument) order, regardless of completion order; if any task failed, the
failure propagates. -/
def gatherResults : List TaskOutcome → Except RunError (List String)
  | [] => .ok []
  | t :: ts =>
    match t.result with
    | .error e => .error e
    | .ok p =>
      match gatherResults ts with
      | .error e => .error e
      | .ok ps => .ok (p :: ps)

/-- All requests issued by a list of tasks. -/
def allRequests : List TaskOutcome → List Request
  | [] => []
  | t :: ts => t.requests ++ allRequests ts

/-- All writes performed by a list of tasks. -/
def allWrites : List TaskOutcome → List WriteOp
  | [] => []
  | t :: ts => t.writes ++ allWrites ts

/-- The observable outcome of one run: requests issued, files written, the
directory state after step 1, and the reported result. -/
structure RunOutcome where
  requests : List Request
  writes : List WriteOp
  dirs : List String
  result : Except RunError (List String)

/-- `main()` generalized over the target list (the source hardcodes
`TARGETS`): ensure `output` exists (`parents=True, exist_ok=True`), fan out
one worker per target, gather in target order. -/
def main (env : NetEnv) (dirs : List String) (tsOf : Nat → Nat)
    (targets : List String) : RunOutcome :=
  match pathMkdir dirs "output" true with
  | .error e => { requests := [], writes := [], dirs := dirs, result := .error e }
  | .ok dirs1 =>
    let tasks := runWorkers env tsOf 0 targets
    { requests := allRequests tasks
      writes := allWrites tasks
      dirs := dirs1
      result := gatherResults tasks }

/-- The hardcoded target list of the source. -/
def TARGETS : List String := ["https://httpbin.org/get"]

/-- `asyncio.run(main())` under `if __name__ == "__main__"`: the process exit
status is 0 on success and nonzero (1) when the propagated failure reaches the
top level. -/
def processExitCode (r : RunOutcome) : Nat :=
  match r.result with
  | .ok _ => 0
  | .error _ => 1

/-- Is `b` a byte that can begin a (possibly valid) UTF-8 sequence?  Nats
outside this set (stray continuation bytes `0x80..0xBF`, the overlong leads
`0xC0`/`0xC1`, and `0xF5..0xFF`) can never start a valid sequence. -/
def isValidStart (b : Nat) : Bool :=
  b < 0x80 || (0xC2 ≤ b && b ≤ 0xF4)

/-! ### Helper lemmas -/

theorem pathMkdir_existOk (dirs : List String) (d : String) :
    pathMkdir dirs d true = .ok (if d ∈ dirs then dirs else d :: dirs) := by
  by_cases h : d ∈ dirs <;> simp [pathMkdir, h]

theorem main_result (env : NetEnv) (dirs : List String) (tsOf : Nat → Nat)
    (targets : List String) :
    (main env dirs tsOf targets).result =
      gatherResults (runWorkers env tsOf 0 targets) := by
  rw [main, pathMkdir_existOk]

theorem main_writes (env : NetEnv) (dirs : List String) (tsOf : Nat → Nat)
    (targets : List String) :
    (main env dirs tsOf targets).writes =
      allWrites (runWorkers env tsOf 0 targets) := by
  rw [main, pathMkdir_existOk]

theorem main_requests (env : NetEnv) (dirs : List String) (tsOf : Nat → Nat)
    (targets : List String) :
    (main env dirs tsOf targets).requests =
      allRequests (runWorkers env tsOf 0 targets) := by
  rw [main, pathMkdir_existOk]

theorem main_dirs (env : NetEnv) (dirs : List String) (tsOf : Nat → Nat)
    (targets : List String) :
    (main env dirs tsOf targets).dirs =
      if "output" ∈ dirs then dirs else "output" :: dirs := by
  rw [main, pathMkdir_existOk]

theorem worker_requests (env : NetEnv) (ts : Nat) (url d : String) :
    (worker env ts url d).requests = [mkRequest url] := by
  cases hr : env.response url <;> simp [worker, fetch, hr]

theorem worker_of_response_ok (env : NetEnv) (ts : Nat) (url d : String)
    (body : List Nat) (hr : env.response url = .ok body) :
    worker env ts url d =
      { requests := [mkRequest url]
        writes := [{ path := d ++ "/result_" ++ toString ts ++ ".json"
                     content := pyJsonDumps url
                       (String.mk ((utf8DecodeIgnore body).take 2000))
                     encoding := "utf-8" }]
        result := .ok (d ++ "/result_" ++ toString ts ++ ".json") } := by
  simp [worker, fetch, hr]

theorem worker_of_response_error (env : NetEnv) (ts : Nat) (url d : String)
    (msg : String) (hr : env.response url = .error msg) :
    worker env ts url d =
      { requests := [mkRequest url]
        writes := []
        result := .error (RunError.fetchError url msg) } := by
  simp [worker, fetch, hr]

theorem utf8DecodeIgnore_invalid_lead (b : Nat) (l : List Nat)
    (h1 : ¬ b < 0x80) (h2 : ¬ (0xC2 ≤ b ∧ b ≤ 0xDF))
    (h3 : ¬ (0xE0 ≤ b ∧ b ≤ 0xEF)) (h4 : ¬ (0xF0 ≤ b ∧ b ≤ 0xF4)) :
    utf8DecodeIgnore (b :: l) = utf8DecodeIgnore l := by
  match l with
  | [] => simp [utf8DecodeIgnore, h1, h2, h3, h4]
  | [b2] => simp [utf8DecodeIgnore, h1, h2, h3, h4]
  | [b2, b3] => simp [utf8DecodeIgnore, h1, h2, h3, h4]
  | b2 :: b3 :: b4 :: rest => simp [utf8DecodeIgnore, h1, h2, h3, h4]

theorem utf8DecodeIgnore_invalid_prefix (bs tail : List Nat)
    (h : ∀ b ∈ bs, isValidStart b = false) :
    utf8DecodeIgnore (bs ++ tail) = utf8DecodeIgnore tail := by
  induction bs with
  | nil => rfl
  | cons b bs ih =>
    have hb := h b (List.mem_cons_self b bs)
    simp [isValidStart] at hb
    have h1 : ¬ b < 0x80 := by omega
    have h2 : ¬ (0xC2 ≤ b ∧ b ≤ 0xDF) := by omega
    have h3 : ¬ (0xE0 ≤ b ∧ b ≤ 0xEF) := by omega
    have h4 : ¬ (0xF0 ≤ b ∧ b ≤ 0xF4) := by omega
    rw [List.cons_append, utf8DecodeIgnore_invalid_lead b (bs ++ tail) h1 h2 h3 h4]
    exact ih (fun x hx => h x (List.mem_cons_of_mem b hx))

theorem hexVal_hexDigitChar (n : Nat) (h : n < 16) :
    hexVal (hexDigitChar n) = some n := by
  interval_cases n <;> decide

/-- Unfolding step for the scanner on a backslash whose escape resolves. -/
theorem scanString_backslash (l : List Char) (ch : Char) (r2 : List Char)
    (h : unescape1 l = some (ch, r2)) :
    scanString ('\\' :: l) = (scanString r2).map (fun p => (ch :: p.1, p.2)) := by
  simp only [scanString]
  split
  · rename_i heq
    exact absurd heq (by decide)
  · split
    · split
      · rename_i heq
        rw [h] at heq
        cases heq
        rfl
      · rename_i heq
        rw [h] at heq
        cases heq
    · rename_i heq2
      exact absurd trivial heq2

/-- The scanner inverts the escaper: scanning the escaped body followed by the
closing quote yields the original body and the input past the quote. -/
theorem scanString_jsonEscapeList (s : List Char) (rest : List Char) :
    scanString (jsonEscapeList s ++ ('"' :: rest)) = some (s, rest) := by
  induction s with
  | nil => simp [jsonEscapeList, scanString]
  | cons c cs ih =>
    by_cases h1 : c = '"'
    · subst h1
      simp [jsonEscapeList, jsonEscapeChar, scanString, unescape1, ih]
    · by_cases h2 : c = '\\'
      · subst h2
        simp [jsonEscapeList, jsonEscapeChar, scanString, unescape1, ih]
      · by_cases h3 : c = '\x08'
        · subst h3
          simp [jsonEscapeList, jsonEscapeChar, scanString, unescape1, ih]
        · by_cases h4 : c = '\x09'
          · subst h4
            simp [jsonEscapeList, jsonEscapeChar, scanString, unescape1, ih]
          · by_cases h5 : c = '\x0a'
            · subst h5
              simp [jsonEscapeList, jsonEscapeChar, scanString, unescape1, ih]
            · by_cases h6 : c = '\x0c'
              · subst h6
                simp [jsonEscapeList, jsonEscapeChar, scanString, unescape1, ih]
              · by_cases h7 : c = '\x0d'
                · subst h7
                  simp [jsonEscapeList, jsonEscapeChar, scanString, unescape1, ih]
                · by_cases h8 : c.toNat < 0x20
                  · have hd1 : hexVal (hexDigitChar (c.toNat / 16)) =
                        some (c.toNat / 16) := hexVal_hexDigitChar _ (by omega)
                    have hd2 : hexVal (hexDigitChar (c.toNat % 16)) =
                        some (c.toNat % 16) := hexVal_hexDigitChar _ (by omega)
                    have hc : Char.ofNat (c.toNat / 16 * 16 + c.toNat % 16) = c := by
                      rw [show c.toNat / 16 * 16 + c.toNat % 16 = c.toNat from by
                        omega]
                      exact Char.ofNat_toNat c
                    have h0 : hexVal '0' = some 0 := by decide
                    have hu : unescape1 ('u' :: '0' :: '0' ::
                        hexDigitChar (c.toNat / 16) :: hexDigitChar (c.toNat % 16) ::
                        (jsonEscapeList cs ++ '"' :: rest)) =
                        some (c, jsonEscapeList cs ++ '"' :: rest) := by
                      simp [unescape1, scanHex4, h0, hd1, hd2, hc]
                    have hesc : jsonEscapeChar c = ['\\', 'u', '0', '0',
                        hexDigitChar (c.toNat / 16), hexDigitChar (c.toNat % 16)] := by
                      simp [jsonEscapeChar, h1, h2, h3, h4, h5, h6, h7, h8]
                    show scanString ((jsonEscapeChar c ++ jsonEscapeList cs) ++
                      '"' :: rest) = _
                    rw [hesc]
                    simp only [List.cons_append, List.append_assoc, List.nil_append]
                    rw [scanString_backslash _ _ _ hu, ih]
                    rfl
                  · simp [jsonEscapeList, jsonEscapeChar, scanString,
                      h1, h2, h3, h4, h5, h6, h7, h8, ih]

theorem string_data_mk (l : List Char) : (String.mk l).data = l := rfl

theorem string_mk_data (s : String) : String.mk s.data = s := rfl

theorem skipWs_nil : skipWs [] = [] := rfl

theorem skipWs_lbrace (l : List Char) : skipWs ('\x7b' :: l) = '\x7b' :: l := rfl

theorem skipWs_rbrace (l : List Char) : skipWs ('\x7d' :: l) = '\x7d' :: l := rfl

theorem skipWs_quote (l : List Char) : skipWs ('"' :: l) = '"' :: l := rfl

theorem skipWs_colon (l : List Char) : skipWs (':' :: l) = ':' :: l := rfl

theorem skipWs_comma (l : List Char) : skipWs (',' :: l) = ',' :: l := rfl

theorem skipWs_nl (l : List Char) : skipWs ('\n' :: l) = skipWs l := rfl

theorem skipWs_sp (l : List Char) : skipWs (' ' :: l) = skipWs l := rfl

/-- Leading `"\n  "` before a member is consumed by its whitespace skip. -/
theorem parseStringMember_ws (l : List Char) :
    parseStringMember ('\n' :: ' ' :: ' ' :: l) = parseStringMember l := by
  simp only [parseStringMember, skipWs_nl, skipWs_sp]

/-- Parsing one serialized `"key": "value"` member recovers key and value. -/
theorem parseStringMember_encode (key val rest : List Char) :
    parseStringMember ('"' :: (jsonEscapeList key ++
      ('"' :: ':' :: ' ' :: '"' :: (jsonEscapeList val ++ ('"' :: rest))))) =
      some ((key, val), rest) := by
  simp only [parseStringMember, skipWs_quote, scanString_jsonEscapeList,
    skipWs_colon, skipWs_sp]

/-- `json.loads` inverts `json.dumps` on the worker's record documents,
recovering both members in order. -/
theorem pyJsonLoadsPair_pyJsonDumps (url preview : String) :
    pyJsonLoadsPair (pyJsonDumps url preview) =
      some (("url", url), ("preview", preview)) := by
  simp only [pyJsonDumps, pyJsonDumpsChars, jsonQuote, List.cons_append,
    List.nil_append, List.append_assoc, pyJsonLoadsPair, string_data_mk,
    skipWs_lbrace, parseStringMember_ws, parseStringMember_encode,
    skipWs_comma, skipWs_nl, skipWs_rbrace, skipWs_nil, string_mk_data]
  simp

theorem gatherResults_ok_spec (ts : List TaskOutcome) : ∀ (ps : List String),
    gatherResults ts = .ok ps →
    ps.length = ts.length ∧
    ∀ i (hi : i < ts.length) (hp : i < ps.length),
      (ts[i]).result = .ok ps[i] := by
  induction ts with
  | nil =>
    intro ps h
    simp only [gatherResults] at h
    cases h
    simp
  | cons t ts ih =>
    intro ps h
    simp only [gatherResults] at h
    split at h
    · cases h
    · rename_i p hp0
      split at h
      · cases h
      · rename_i ps0 hps0
        cases h
        obtain ⟨hlen, hget⟩ := ih ps0 hps0
        refine ⟨by simp [hlen], ?_⟩
        intro i hi hp
        cases i with
        | zero => simpa using hp0
        | succ j =>
          simp only [List.getElem_cons_succ]
          exact hget j (by simpa using hi) (by simpa using hp)

theorem gatherResults_error_mem (ts : List TaskOutcome) (t : TaskOutcome)
    (hmem : t ∈ ts) (e : RunError) (ht : t.result = .error e) :
    ∃ e2, gatherResults ts = .error e2 := by
  induction ts with
  | nil => cases hmem
  | cons t0 ts ih =>
    rcases List.mem_cons.mp hmem with h0 | h0
    · subst h0
      exact ⟨e, by simp only [gatherResults, ht]⟩
    · obtain ⟨e2, h2⟩ := ih h0
      cases ht0 : t0.result with
      | error e0 => exact ⟨e0, by simp only [gatherResults, ht0]⟩
      | ok p => exact ⟨e2, by simp only [gatherResults, ht0, h2]⟩

theorem runWorkers_length (env : NetEnv) (tsOf : Nat → Nat) :
    ∀ (targets : List String) (k : Nat),
    (runWorkers env tsOf k targets).length = targets.length := by
  intro targets
  induction targets with
  | nil => intro k; rfl
  | cons u r ih => intro k; simp [runWorkers, ih]

theorem runWorkers_getElem (env : NetEnv) (tsOf : Nat → Nat) :
    ∀ (targets : List String) (k i : Nat) (hi : i < targets.length)
      (hr : i < (runWorkers env tsOf k targets).length),
    (runWorkers env tsOf k targets)[i] =
      worker env (tsOf (k + i)) targets[i] "output" := by
  intro targets
  induction targets with
  | nil => intro k i hi hr; exact absurd hi (by simp)
  | cons u r ih =>
    intro k i hi hr
    cases i with
    | zero => simp [runWorkers]
    | succ j =>
      simp only [runWorkers, List.getElem_cons_succ]
      rw [show k + (j + 1) = (k + 1) + j from by omega]
      exact ih (k + 1) j (by simpa using hi)
        (by rw [runWorkers_length]; simpa using hi)

/-! ### Claims -/

/-- C1: for every response body, the preview returned by `fetch` has length at
most 2000 characters, and when the leniently decoded body has at least 2000
characters the preview is exactly its first 2000 characters. -/
theorem C1_preview_truncation (env : NetEnv) (url : String) (body : List Nat)
    (hbody : env.response url = .ok body) :
    ∃ preview : String,
      (fetch env url).2 = .ok preview ∧
      preview.length ≤ 2000 ∧
      (2000 ≤ (utf8DecodeIgnore body).length →
        preview.data = (utf8DecodeIgnore body).take 2000) := by
  refine ⟨String.mk ((utf8DecodeIgnore body).take 2000), ?_, ?_, fun _ => rfl⟩
  · simp [fetch, hbody]
  · show ((utf8DecodeIgnore body).take 2000).length ≤ 2000
    exact List.length_take_le 2000 _

/-- C1 witness: the truncation bound at a concrete two-byte body. -/
theorem C1_preview_truncation_witness :
    ∃ preview : String,
      (fetch ⟨fun _ => Except.ok [104, 105]⟩ "https://example.test/ok").2 =
        .ok preview ∧
      preview.length ≤ 2000 ∧
      (2000 ≤ (utf8DecodeIgnore [104, 105]).length →
        preview.data = (utf8DecodeIgnore [104, 105]).take 2000) :=
  C1_preview_truncation ⟨fun _ => Except.ok [104, 105]⟩
    "https://example.test/ok" [104, 105] rfl

/-- C10: when the decoded body is shorter than 2000 characters, `fetch`
returns it whole; and invalid bytes are dropped outright (a prefix of invalid
start bytes contributes nothing to the decode — no substitution characters). -/
theorem C10_short_body_whole (env : NetEnv) (url : String) (body : List Nat)
    (hbody : env.response url = .ok body)
    (hshort : (utf8DecodeIgnore body).length < 2000) :
    (fetch env url).2 = .ok (String.mk (utf8DecodeIgnore body)) ∧
    (∀ bs tail : List Nat, (∀ b ∈ bs, isValidStart b = false) →
      utf8DecodeIgnore (bs ++ tail) = utf8DecodeIgnore tail) := by
  constructor
  · simp [fetch, hbody, List.take_of_length_le (Nat.le_of_lt hshort)]
  · exact utf8DecodeIgnore_invalid_prefix

/-- C10 witness: a body with a stray `0xFF` byte is returned whole with the
invalid byte dropped. -/
theorem C10_short_body_whole_witness :
    (fetch ⟨fun _ => Except.ok [97, 0xFF, 98]⟩ "u").2 =
      .ok (String.mk (utf8DecodeIgnore [97, 0xFF, 98])) ∧
    (∀ bs tail : List Nat, (∀ b ∈ bs, isValidStart b = false) →
      utf8DecodeIgnore (bs ++ tail) = utf8DecodeIgnore tail) :=
  C10_short_body_whole ⟨fun _ => Except.ok [97, 0xFF, 98]⟩ "u" [97, 0xFF, 98]
    rfl (by decide)

/-- C7: on an empty target list the run succeeds, writes nothing, returns the
empty path list, and the process exit status is zero. -/
theorem C7_empty_target_list (env : NetEnv) (dirs : List String)
    (tsOf : Nat → Nat) :
    (main env dirs tsOf []).result = .ok [] ∧
    (main env dirs tsOf []).writes = [] ∧
    processExitCode (main env dirs tsOf []) = 0 := by
  refine ⟨main_result env dirs tsOf [], main_writes env dirs tsOf [], ?_⟩
  rw [processExitCode, main_result]
  rfl

/-- C6: the directory-creation step (`parents=True, exist_ok=True`) succeeds
on every filesystem state, and after a run the `output` directory exists and
creating it again succeeds and changes nothing — so a second run never fails
because the directory already exists. -/
theorem C6_idempotent_mkdir (env : NetEnv) (dirs : List String)
    (tsOf : Nat → Nat) (targets : List String) :
    (∀ ds : List String, ∃ d1, pathMkdir ds "output" true = .ok d1) ∧
    pathMkdir (main env dirs tsOf targets).dirs "output" true =
      .ok (main env dirs tsOf targets).dirs := by
  constructor
  · intro ds
    exact ⟨_, pathMkdir_existOk ds "output"⟩
  · rw [main_dirs, pathMkdir_existOk]
    by_cases h : "output" ∈ dirs <;> simp [h]

/-- C9: a run issues exactly one GET request per target, in target order, each
carrying only the fixed `User-Agent: AutonomousBot/1.0` header and a 15-second
timeout, with no authentication, cookies or proxy configured. -/
theorem C9_one_request_per_target (env : NetEnv) (dirs : List String)
    (tsOf : Nat → Nat) (targets : List String) :
    (main env dirs tsOf targets).requests =
      targets.map (fun url =>
        { method := "GET"
          url := url
          headers := [("User-Agent", "AutonomousBot/1.0")]
          timeoutSeconds := 15
          auth := none
          cookies := []
          proxy := none }) := by
  rw [main_requests]
  suffices h : ∀ (ts : List String) (k : Nat),
      allRequests (runWorkers env tsOf k ts) = ts.map mkRequest by
    exact h targets 0
  intro ts
  induction ts with
  | nil => intro k; rfl
  | cons url rest ih =>
    intro k
    simp [runWorkers, allRequests, worker_requests, ih (k + 1), mkRequest]

/-- C2: on a successful run, the returned path list has one entry per target
and its `i`-th entry is the path produced by the worker for the `i`-th target,
whatever timestamps (`tsOf`, standing for completion order) the tasks saw. -/
theorem C2_order_preserved (env : NetEnv) (dirs : List String) (tsOf : Nat → Nat)
    (targets : List String) (paths : List String)
    (h : (main env dirs tsOf targets).result = .ok paths) :
    paths.length = targets.length ∧
    ∀ i (hi : i < targets.length) (hp : i < paths.length),
      (worker env (tsOf i) targets[i] "output").result = .ok paths[i] := by
  rw [main_result] at h
  obtain ⟨hlen, hget⟩ := gatherResults_ok_spec _ _ h
  have hrw := runWorkers_length env tsOf targets 0
  refine ⟨by rw [hlen, hrw], ?_⟩
  intro i hi hp
  have hr : i < (runWorkers env tsOf 0 targets).length := by
    rw [hrw]; exact hi
  have hg := hget i hr hp
  rw [runWorkers_getElem env tsOf targets 0 i hi hr] at hg
  simpa using hg

/-- C2 witness: a two-target success run returns the two worker paths in
target order. -/
theorem C2_order_preserved_witness :
    (["output/result_0.json", "output/result_0.json"] : List String).length =
      (["https://a.test/", "https://b.test/"] : List String).length ∧
    ∀ i (hi : i < (["https://a.test/", "https://b.test/"] : List String).length)
      (hp : i < (["output/result_0.json", "output/result_0.json"] : List String).length),
      (worker ⟨fun _ => Except.ok [104]⟩ ((fun _ => 0) i)
        (["https://a.test/", "https://b.test/"] : List String)[i] "output").result =
        .ok (["output/result_0.json", "output/result_0.json"] : List String)[i] :=
  C2_order_preserved ⟨fun _ => Except.ok [104]⟩ [] (fun _ => 0)
    ["https://a.test/", "https://b.test/"]
    ["output/result_0.json", "output/result_0.json"] rfl

/-- C3: a target whose fetch fails gets no file written, exactly one request
(no retry), its error propagated un-substituted, and the run reports failure
with exit status 1. -/
theorem C3_fetch_failure (env : NetEnv) (dirs : List String) (tsOf : Nat → Nat)
    (targets : List String) (i : Nat) (e : String) (hi : i < targets.length)
    (hfail : env.response targets[i] = .error e) :
    (worker env (tsOf i) targets[i] "output").writes = [] ∧
    (worker env (tsOf i) targets[i] "output").result =
      .error (RunError.fetchError targets[i] e) ∧
    (worker env (tsOf i) targets[i] "output").requests = [mkRequest targets[i]] ∧
    (∃ e2, (main env dirs tsOf targets).result = .error e2) ∧
    processExitCode (main env dirs tsOf targets) = 1 := by
  have hw := worker_of_response_error env (tsOf i) targets[i] "output" e hfail
  have herr : ∃ e2, (main env dirs tsOf targets).result = .error e2 := by
    have hr : i < (runWorkers env tsOf 0 targets).length := by
      rw [runWorkers_length]; exact hi
    have hmem : (runWorkers env tsOf 0 targets)[i] ∈ runWorkers env tsOf 0 targets :=
      List.getElem_mem _
    rw [runWorkers_getElem env tsOf targets 0 i hi hr] at hmem
    simp only [Nat.zero_add] at hmem
    obtain ⟨e2, hge⟩ := gatherResults_error_mem _ _ hmem
      (RunError.fetchError targets[i] e) (by rw [hw])
    exact ⟨e2, by rw [main_result]; exact hge⟩
  refine ⟨by rw [hw], by rw [hw], by rw [hw], herr, ?_⟩
  obtain ⟨e2, h2⟩ := herr
  simp [processExitCode, h2]

/-- C3 witness: the single unreachable target writes nothing and the run
exits with status 1. -/
theorem C3_fetch_failure_witness :
    (worker ⟨fun _ => Except.error "unreachable"⟩ ((fun _ => 0) 0)
      (["https://example.test/down"] : List String)[0] "output").writes = [] ∧
    (worker ⟨fun _ => Except.error "unreachable"⟩ ((fun _ => 0) 0)
      (["https://example.test/down"] : List String)[0] "output").result =
      .error (RunError.fetchError (["https://example.test/down"] : List String)[0]
        "unreachable") ∧
    (worker ⟨fun _ => Except.error "unreachable"⟩ ((fun _ => 0) 0)
      (["https://example.test/down"] : List String)[0] "output").requests =
      [mkRequest (["https://example.test/down"] : List String)[0]] ∧
    (∃ e2, (main ⟨fun _ => Except.error "unreachable"⟩ [] (fun _ => 0)
      ["https://example.test/down"]).result = .error e2) ∧
    processExitCode (main ⟨fun _ => Except.error "unreachable"⟩ [] (fun _ => 0)
      ["https://example.test/down"]) = 1 :=
  C3_fetch_failure ⟨fun _ => Except.error "unreachable"⟩ [] (fun _ => 0)
    ["https://example.test/down"] 0 "unreachable" (by decide) rfl

/-- C4: a successful fetch produces exactly one write: an indented two-member
JSON document holding the url and the preview, UTF-8 encoded, at
`output/result_<ts>.json`; parsing the content back recovers exactly the two
members, and every non-ASCII character is emitted unescaped. -/
theorem C4_output_file (env : NetEnv) (ts : Nat) (url : String) (body : List Nat)
    (hbody : env.response url = .ok body) :
    ∃ preview : String,
      (fetch env url).2 = .ok preview ∧
      (worker env ts url "output").writes =
        [{ path := "output" ++ "/result_" ++ toString ts ++ ".json"
           content := pyJsonDumps url preview
           encoding := "utf-8" }] ∧
      pyJsonLoadsPair (pyJsonDumps url preview) =
        some (("url", url), ("preview", preview)) ∧
      (∀ c : Char, 0x80 ≤ c.toNat → jsonEscapeChar c = [c]) := by
  refine ⟨String.mk ((utf8DecodeIgnore body).take 2000), ?_, ?_,
    pyJsonLoadsPair_pyJsonDumps url _, ?_⟩
  · simp [fetch, hbody]
  · rw [worker_of_response_ok env ts url "output" body hbody]
  · intro c hc
    have h1 : ¬ c = '"' := fun h => by subst h; exact absurd hc (by decide)
    have h2 : ¬ c = '\\' := fun h => by subst h; exact absurd hc (by decide)
    have h3 : ¬ c = '\x08' := fun h => by subst h; exact absurd hc (by decide)
    have h4 : ¬ c = '\x09' := fun h => by subst h; exact absurd hc (by decide)
    have h5 : ¬ c = '\x0a' := fun h => by subst h; exact absurd hc (by decide)
    have h6 : ¬ c = '\x0c' := fun h => by subst h; exact absurd hc (by decide)
    have h7 : ¬ c = '\x0d' := fun h => by subst h; exact absurd hc (by decide)
    have h8 : ¬ c.toNat < 0x20 := by omega
    simp [jsonEscapeChar, h1, h2, h3, h4, h5, h6, h7, h8]

/-- C4 witness: the output file for a one-byte body at a concrete timestamp. -/
theorem C4_output_file_witness :
    ∃ preview : String,
      (fetch ⟨fun _ => Except.ok [104]⟩ "https://example.test/ok").2 =
        .ok preview ∧
      (worker ⟨fun _ => Except.ok [104]⟩ 1700000000 "https://example.test/ok"
        "output").writes =
        [{ path := "output" ++ "/result_" ++ toString 1700000000 ++ ".json"
           content := pyJsonDumps "https://example.test/ok" preview
           encoding := "utf-8" }] ∧
      pyJsonLoadsPair (pyJsonDumps "https://example.test/ok" preview) =
        some (("url", "https://example.test/ok"), ("preview", preview)) ∧
      (∀ c : Char, 0x80 ≤ c.toNat → jsonEscapeChar c = [c]) :=
  C4_output_file ⟨fun _ => Except.ok [104]⟩ 1700000000 "https://example.test/ok"
    [104] rfl

/-- C5: serializing any `(url, preview)` record the way the worker does and
parsing it back yields the identical record — no character loss and no
re-encoding artifacts. -/
theorem C5_record_roundtrip (url preview : String) :
    pyJsonLoadsRecord (pyJsonDumps url preview) = some (url, preview) := by
  simp [pyJsonLoadsRecord, pyJsonLoadsPair_pyJsonDumps]

end SwiftRemit
